import Mathlib

/-!
# Verification of the Röstigraben votation preprocessing pipeline

Shallow embedding of `roestigraben_pipeline.py` (Swiss municipality-code
harmonization and votation-result attachment) and proofs about it.

Conventions of the embedding:
* pandas DataFrames become Lean lists of structures, one structure per row
  schema occurring in the script;
* a cell that can be NaN/None (produced by a left merge that misses, or by
  `pd.isna` handling) becomes an `Option` field;
* `DataFrame.merge` becomes an explicit `flatMap`: each left row is paired
  with every matching right row, and for a `how="left"` merge an unmatched left row
  yields one row with `none` in the right-hand columns;
* parsed mutation dates (`pd.to_datetime`) become `Nat` ordinals — only their
  order matters to the script;
* `sort_values` becomes `List.insertionSort` (a stable sort; the pandas default
  quicksort leaves the relative order of equal keys unspecified, so each
  theorem that depends on a sort carries hypotheses under which every sort
  order yields the same result);
* the `print`-based audit trail of the script becomes an explicit list of the
  data-dependent log records the corresponding code region emits.
-/

namespace Roestigraben

/-! ## Mutation records and `create_mutation_key` (lines 89–136)

A row of the BFS mutation CSV after `pd.to_datetime` parsing:
`{InitialCode, TerminalCode, MutationDate}`. -/

structure Mutation where
  initialCode : Nat
  terminalCode : Nat
  mutationDate : Nat
deriving DecidableEq, Repr

/-- Comparison used by `sort_values("MutationDate")`. -/
def dateLe (a b : Mutation) : Prop := a.mutationDate ≤ b.mutationDate

instance : DecidableRel dateLe := fun a b => Nat.decLe a.mutationDate b.mutationDate

instance : IsTotal Mutation dateLe := ⟨fun a b => Nat.le_total a.mutationDate b.mutationDate⟩

instance : IsTrans Mutation dateLe := ⟨fun _ _ _ => Nat.le_trans⟩

/-- The sort `mutations_df.sort_values("MutationDate")` of line 129. -/
def sortByDate (ms : List Mutation) : List Mutation := List.insertionSort dateLe ms

/-- The row of the `groupby("InitialCode")` group for `c` that
`agg` with `TerminalCode: last` selects (lines 130–131): groupby preserves
the (date-sorted) row order inside each group, and `last` takes the final
row of the group. -/
def groupLast (ms : List Mutation) (c : Nat) : Option Mutation :=
  ((sortByDate ms).filter (fun m => m.initialCode = c)).getLast?

/-- Lookup in the mutation key produced by `create_mutation_key`
(lines 116–136): `InitialCode → FinalCode`.  The early return for an empty
DataFrame (lines 120–121) coincides with the general case, since every group
is then empty.  `groupby` guarantees one key row per distinct `InitialCode`,
so the key is exactly this partial mapping. -/
def mutationKeyLookup (ms : List Mutation) (c : Nat) : Option Nat :=
  (groupLast ms c).map Mutation.terminalCode

/-- Code resolution as performed by the merge with the mutation key in
`harmonize_communes` (lines 228–237): left-merge on
`GMDNR = InitialCode`, then `FinalCode.fillna(GMDNR)` — i.e. the key value
`FinalCode` when the code has a mutation entry, the raw code otherwise. -/
def resolve (ms : List Mutation) (c : Nat) : Nat :=
  (mutationKeyLookup ms c).getD c

lemma sorted_getLast?_max {l : List Mutation} (hs : l.Sorted dateLe) {y : Mutation}
    (hy : l.getLast? = some y) : ∀ x ∈ l, x.mutationDate ≤ y.mutationDate := by
  induction l with
  | nil => simp at hy
  | cons a t ih =>
    rcases t with _ | ⟨b, t'⟩
    · simp at hy
      subst hy
      intro x hx
      simp at hx
      subst hx
      exact Nat.le_refl _
    · have hy' : (b :: t').getLast? = some y := by
        simpa [List.getLast?] using hy
      have hst := (List.sorted_cons.mp hs).2
      have hrel := (List.sorted_cons.mp hs).1
      intro x hx
      rcases List.mem_cons.mp hx with hxa | hxt
      · subst hxa
        have hb : x.mutationDate ≤ b.mutationDate := hrel b (by simp)
        have hby : b.mutationDate ≤ y.mutationDate :=
          ih hst hy' b (by simp)
        exact Nat.le_trans hb hby
      · exact ih hst hy' x hxt

/-- The date-sorted group for `c` is a permutation of the unsorted group. -/
lemma groupPerm (ms : List Mutation) (c : Nat) :
    ((sortByDate ms).filter (fun m => m.initialCode = c)).Perm
      (ms.filter (fun m => m.initialCode = c)) :=
  (List.perm_insertionSort dateLe ms).filter _

/-- C1: for every mutation list and every initial code occurring in it whose
group has a unique maximum-date record `m`, `create_mutation_key` maps the
code to `m.terminalCode` — the terminal code of the chronologically last
mutation of that code.  The list `ms` is universally quantified and the
hypotheses are invariant under reordering, so the result is independent of
the input ordering of the mutation records; and because the result is the
terminal code of the own last mutation of the code, no transitive chaining across
different initial codes occurs (see the witness: with A→B and B→C in the key,
A resolves to B, not C). -/
theorem resolve_max_date (ms : List Mutation) (c : Nat) (m : Mutation)
    (hm : m ∈ ms) (hc : m.initialCode = c)
    (hmax : ∀ m' ∈ ms, m'.initialCode = c →
      m' = m ∨ m'.mutationDate < m.mutationDate) :
    resolve ms c = m.terminalCode ∧
    ∀ ms' : List Mutation, ms.Perm ms' → resolve ms' c = m.terminalCode := by
  have main : ∀ ns : List Mutation, ms.Perm ns → resolve ns c = m.terminalCode := by
    intro ns hperm
    set g := (sortByDate ns).filter (fun m' => m'.initialCode = c) with hg
    have hmg : m ∈ g := by
      rw [hg]
      refine List.mem_filter.mpr ⟨?_, by simp [hc]⟩
      exact ((List.perm_insertionSort dateLe ns).mem_iff).mpr (hperm.mem_iff.mp hm)
    have hgne : g ≠ [] := List.ne_nil_of_mem hmg
    obtain ⟨y, hy⟩ : ∃ y, g.getLast? = some y := by
      rcases hgy : g.getLast? with _ | y
      · exact absurd (List.getLast?_eq_none_iff.mp hgy) hgne
      · exact ⟨y, rfl⟩
    have hyg : y ∈ g := List.mem_of_mem_getLast? hy
    have hyms : y ∈ ns ∧ y.initialCode = c := by
      have := List.mem_filter.mp (hg ▸ hyg)
      refine ⟨((List.perm_insertionSort dateLe ns).mem_iff).mp this.1, by simpa using this.2⟩
    have hsorted : g.Sorted dateLe := (List.sorted_insertionSort dateLe ns).filter _
    have hmy : m.mutationDate ≤ y.mutationDate := sorted_getLast?_max hsorted hy m hmg
    have hym : y = m := by
      rcases hmax y (hperm.mem_iff.mpr hyms.1) hyms.2 with h | h
      · exact h
      · exact absurd hmy (Nat.not_le_of_lt h)
    subst hym
    simp only [resolve, mutationKeyLookup, groupLast, ← hg, hy]
    rfl
  exact ⟨main ms (List.Perm.refl ms), main⟩

/-- Witness for C1 at a concrete input containing the chain 1→2 (date 10)
and 2→3 (date 20): code 1 resolves to 2 (not chained on to 3), and code 2
resolves to 3. -/
theorem resolve_max_date_witness :
    resolve [⟨1, 2, 10⟩, ⟨2, 3, 20⟩] 1 = 2 ∧
    resolve [⟨1, 2, 10⟩, ⟨2, 3, 20⟩] 2 = 3 :=
  ⟨(resolve_max_date [⟨1, 2, 10⟩, ⟨2, 3, 20⟩] 1 ⟨1, 2, 10⟩ (by decide) rfl
      (by decide)).1,
   (resolve_max_date [⟨1, 2, 10⟩, ⟨2, 3, 20⟩] 2 ⟨2, 3, 20⟩ (by decide) rfl
      (by decide)).1⟩

/-- C2: a raw code that appears in no mutation record as `InitialCode`
resolves to itself; in particular (empty mutation list — the degraded path
of lines 110–113 and 120–121) the resolver is the identity on every code. -/
theorem resolve_identity (ms : List Mutation) (c : Nat)
    (h : ∀ m ∈ ms, m.initialCode ≠ c) : resolve ms c = c := by
  have hfil : (sortByDate ms).filter (fun m => m.initialCode = c) = [] := by
    refine List.filter_eq_nil_iff.mpr ?_
    intro a ha
    have : a ∈ ms := ((List.perm_insertionSort dateLe ms).mem_iff).mp ha
    simpa using h a this
  simp [resolve, mutationKeyLookup, groupLast, hfil]

/-- Witness for C2: identity on the empty mutation list and on a code absent
from a nonempty one. -/
theorem resolve_identity_witness :
    resolve [] 261 = 261 ∧ resolve [⟨1, 2, 10⟩] 999 = 999 :=
  ⟨resolve_identity [] 261 (by simp),
   resolve_identity [⟨1, 2, 10⟩] 999 (by decide)⟩

/-! ## `remove_canton_abbreviations` (lines 200–206)

`re.sub` of the raw pattern `space ( [A-Z] [A-Z] ) dollar` with the empty replacement on `str(text)`, with `pd.isna` passing missing
values through unchanged.  Strings are modelled as `List Char`.  The un-flagged Python `$` matches at the very end of the string **or just before a
newline that ends the string**, so the pattern — a space, an open
parenthesis, exactly two ASCII uppercase letters, a close parenthesis — is
removed either at the end or immediately before a single trailing newline.
At most one position can match, so `re.sub` removes at most one occurrence.
The function is modelled on the reversed character list. -/

/-- The character class `[A-Z]` (ASCII uppercase only). -/
def isUpperAZ (c : Char) : Bool := 'A' ≤ c && c ≤ 'Z'

/-- The substitution acting on the reversed string: the
first arm is a match at the end of the string, the second a match just
before a trailing newline (Python `$` semantics); otherwise no match. -/
def rcaRev : List Char → List Char
  | ')' :: b :: a :: '(' :: ' ' :: rest =>
      if isUpperAZ a && isUpperAZ b then rest else ')' :: b :: a :: '(' :: ' ' :: rest
  | '\n' :: ')' :: b :: a :: '(' :: ' ' :: rest =>
      if isUpperAZ a && isUpperAZ b then '\n' :: rest
      else '\n' :: ')' :: b :: a :: '(' :: ' ' :: rest
  | l => l

/-- The function `remove_canton_abbreviations` on a non-null string (lines 200–206). -/
def removeCantonAbbreviations (s : List Char) : List Char :=
  (rcaRev s.reverse).reverse

/-- The function `remove_canton_abbreviations` including the `pd.isna` guard (line 204):
a missing value is returned unchanged. -/
def removeCantonAbbreviationsOpt : Option (List Char) → Option (List Char)
  | none => none
  | some s => some (removeCantonAbbreviations s)

lemma rcaRev_pat5 (a b : Char) (rest : List Char)
    (ha : isUpperAZ a = true) (hb : isUpperAZ b = true) :
    rcaRev (')' :: b :: a :: '(' :: ' ' :: rest) = rest := by
  simp [rcaRev, ha, hb]

lemma rcaRev_pat6 (a b : Char) (rest : List Char)
    (ha : isUpperAZ a = true) (hb : isUpperAZ b = true) :
    rcaRev ('\n' :: ')' :: b :: a :: '(' :: ' ' :: rest) = '\n' :: rest := by
  simp [rcaRev, ha, hb]

lemma rcaRev_eq_self (l : List Char)
    (h : ∀ a b rest, isUpperAZ a = true → isUpperAZ b = true →
      l ≠ ')' :: b :: a :: '(' :: ' ' :: rest ∧
      l ≠ '\n' :: ')' :: b :: a :: '(' :: ' ' :: rest) :
    rcaRev l = l := by
  unfold rcaRev
  split
  · rename_i b a rest
    split
    · rename_i hup
      have ha := (Bool.and_eq_true _ _).mp hup
      exact absurd rfl ((h a b rest ha.1 ha.2).1)
    · rfl
  · rename_i b a rest
    split
    · rename_i hup
      have ha := (Bool.and_eq_true _ _).mp hup
      exact absurd rfl ((h a b rest ha.1 ha.2).2)
    · rfl
  · rfl

/-- C4 (amended): `remove_canton_abbreviations` removes a trailing
`" (XX)"` (space, open parenthesis, two ASCII uppercase letters, close
parenthesis) anchored at the end of the string **or immediately before a
single trailing newline** (Python `$` semantics), and leaves every other
string unchanged. -/
theorem remove_canton_spec (s : List Char) :
    (∀ t a b, isUpperAZ a = true → isUpperAZ b = true →
      s = t ++ [' ', '(', a, b, ')'] → removeCantonAbbreviations s = t) ∧
    (∀ t a b, isUpperAZ a = true → isUpperAZ b = true →
      s = t ++ [' ', '(', a, b, ')', '\n'] →
        removeCantonAbbreviations s = t ++ ['\n']) ∧
    ((∀ t a b, isUpperAZ a = true → isUpperAZ b = true →
      s ≠ t ++ [' ', '(', a, b, ')'] ∧ s ≠ t ++ [' ', '(', a, b, ')', '\n']) →
        removeCantonAbbreviations s = s) := by
  refine ⟨?_, ?_, ?_⟩
  · intro t a b ha hb hs
    subst hs
    have hrev : (t ++ [' ', '(', a, b, ')']).reverse
        = ')' :: b :: a :: '(' :: ' ' :: t.reverse := by
      simp
    rw [removeCantonAbbreviations, hrev, rcaRev_pat5 a b t.reverse ha hb,
      List.reverse_reverse]
  · intro t a b ha hb hs
    subst hs
    have hrev : (t ++ [' ', '(', a, b, ')', '\n']).reverse
        = '\n' :: ')' :: b :: a :: '(' :: ' ' :: t.reverse := by
      simp
    rw [removeCantonAbbreviations, hrev, rcaRev_pat6 a b t.reverse ha hb]
    simp
  · intro h
    have : rcaRev s.reverse = s.reverse := by
      refine rcaRev_eq_self s.reverse ?_
      intro a b rest ha hb
      constructor
      · intro hrev
        have hs : s = rest.reverse ++ [' ', '(', a, b, ')'] := by
          have := congrArg List.reverse hrev
          simpa using this
        exact (h rest.reverse a b ha hb).1 hs
      · intro hrev
        have hs : s = rest.reverse ++ [' ', '(', a, b, ')', '\n'] := by
          have := congrArg List.reverse hrev
          simpa using this
        exact (h rest.reverse a b ha hb).2 hs
    rw [removeCantonAbbreviations, this, List.reverse_reverse]

/-- Witness for C4 (amended): `"Bern (BE)"` loses its suffix,
`"Bern (BE)\n"` loses the suffix before the trailing newline, and
`"Genève"`-like strings without the suffix are unchanged. -/
theorem remove_canton_spec_witness :
    removeCantonAbbreviations ['B', 'e', 'r', 'n', ' ', '(', 'B', 'E', ')']
        = ['B', 'e', 'r', 'n'] ∧
    removeCantonAbbreviations ['B', 'e', 'r', 'n', ' ', '(', 'B', 'E', ')', '\n']
        = ['B', 'e', 'r', 'n', '\n'] ∧
    removeCantonAbbreviations ['B', 'e', 'r', 'n'] = ['B', 'e', 'r', 'n'] :=
  ⟨(remove_canton_spec _).1 ['B', 'e', 'r', 'n'] 'B' 'E' (by decide) (by decide) rfl,
   (remove_canton_spec _).2.1 ['B', 'e', 'r', 'n'] 'B' 'E' (by decide) (by decide) rfl,
   (remove_canton_spec _).2.2 (by
      intro t a b _ _
      refine ⟨fun h => ?_, fun h => ?_⟩
      · have := congrArg List.length h
        simp at this
      · have := congrArg List.length h
        simp at this)⟩

/-- The suffix test exactly as the claim words it: the string ends — at its
very last character — in a space, an open parenthesis, exactly two uppercase
letters and a close parenthesis.  (Second definition following the wording of the claim, to be compared with `removeCantonAbbreviations` from the source.) -/
def claimedCantonSuffix (s : List Char) : Bool :=
  match s.reverse with
  | ')' :: b :: a :: '(' :: ' ' :: _ => isUpperAZ a && isUpperAZ b
  | _ => false

/-- Counterexample to C4 as stated: `"A (BE)\n"` does not end in the
claimed pattern (its last character is a newline), yet
`remove_canton_abbreviations` modifies it — the Python `$` also matches just
before a newline that ends the string, giving `"A\n"`. -/
theorem remove_canton_newline_cex :
    claimedCantonSuffix ['A', ' ', '(', 'B', 'E', ')', '\n'] = false ∧
    removeCantonAbbreviations ['A', ' ', '(', 'B', 'E', ')', '\n']
        ≠ ['A', ' ', '(', 'B', 'E', ')', '\n'] ∧
    removeCantonAbbreviations ['A', ' ', '(', 'B', 'E', ')', '\n'] = ['A', '\n'] := by
  refine ⟨by decide, by decide, by decide⟩

/-! ## Harmonization stages of `harmonize_communes` (lines 209–308)

Row schemas of the intermediate DataFrames. -/

/-- An InterCity roster row after mutation resolution (lines 228–240):
`{order_ic, ligne, GMDNR}`. -/
structure ICRow where
  order_ic : Nat
  ligne : String
  gmdnr : Nat
deriving DecidableEq, Repr

/-- A row of `spatial_df` after the canton merge (lines 247–251):
`{CODE_OFS, Name_fr, iso2}`, where `iso2` is `none` when the canton
left-merge found no match. -/
structure GeoRow where
  code_ofs : Nat
  name_fr : String
  iso2 : Option String
deriving DecidableEq, Repr

/-- A row of `result_df` after the geographic merge (lines 255–258):
`Name_fr` and `iso2` are `none` when `GMDNR` was absent from the snapshot. -/
structure GRow where
  order_ic : Nat
  ligne : String
  gmdnr : Nat
  name_fr : Option String
  iso2 : Option String
deriving DecidableEq, Repr

/-- The left merge of the resolved roster with the geo snapshot on
`GMDNR = CODE_OFS` (lines 255–258): each roster row is paired with every
matching snapshot row; an unmatched roster row is kept with null
`Name_fr`/`iso2`. -/
def geoJoin (rows : List ICRow) (geo : List GeoRow) : List GRow :=
  rows.flatMap (fun r =>
    match geo.filter (fun g => g.code_ofs = r.gmdnr) with
    | [] => [⟨r.order_ic, r.ligne, r.gmdnr, none, none⟩]
    | gs => gs.map (fun g => ⟨r.order_ic, r.ligne, r.gmdnr, some g.name_fr, g.iso2⟩))

/-- The per-code warning records emitted by the geographic-join region of
`harmonize_communes` (lines 253–262).  That region prints only the fixed
banners `"🗺️ Fusion avec les données géographiques..."` and
`"🧹 Suppression des doublons..."`; no data-dependent message naming an
unmatched code is produced, so the list of warned codes is empty for every
input. -/
def geoJoinWarnedCodes (_rows : List ICRow) (_geo : List GeoRow) : List Nat := []

/-- C7 (amended): a roster row whose resolved code is absent from the
geo-level snapshot is kept, with null canonical name and null canton — but
no warning identifying the unmatched code is emitted at this stage of the
pipeline. -/
theorem geoJoin_unmatched (rows : List ICRow) (geo : List GeoRow) (r : ICRow)
    (hr : r ∈ rows) (h : ∀ g ∈ geo, g.code_ofs ≠ r.gmdnr) :
    (⟨r.order_ic, r.ligne, r.gmdnr, none, none⟩ : GRow) ∈ geoJoin rows geo ∧
    geoJoinWarnedCodes rows geo = [] := by
  refine ⟨?_, rfl⟩
  have hfil : geo.filter (fun g => g.code_ofs = r.gmdnr) = [] := by
    refine List.filter_eq_nil_iff.mpr ?_
    intro g hg
    simpa using h g hg
  refine List.mem_flatMap.mpr ⟨r, hr, ?_⟩
  rw [hfil]
  simp

/-- Concrete roster for the C7 record: one row whose code 999 is not in the
snapshot. -/
def icRows0 : List ICRow := [⟨1, "ic1", 999⟩]

/-- Concrete geo snapshot for the C7 record: only code 261. -/
def geo0 : List GeoRow := [⟨261, "Bern", some "BE"⟩]

/-- Counterexample to C7 as stated: for roster code 999 absent from the
snapshot, the join does produce the null-name/null-canton row (first
conjunct), but the warning the claim requires is never emitted — the
geographic-join region of `harmonize_communes` prints no message naming the
unmatched code (second conjunct). -/
theorem geoJoin_warning_cex :
    geoJoin icRows0 geo0 = [⟨1, "ic1", 999, none, none⟩] ∧
    geoJoinWarnedCodes icRows0 geo0 = [] :=
  ⟨rfl, rfl⟩

/-- Witness for C7 (amended) at the same concrete input. -/
theorem geoJoin_unmatched_witness :
    (⟨1, "ic1", 999, none, none⟩ : GRow) ∈ geoJoin icRows0 geo0 ∧
    geoJoinWarnedCodes icRows0 geo0 = [] :=
  geoJoin_unmatched icRows0 geo0 ⟨1, "ic1", 999⟩ (by simp [icRows0]) (by decide)

/-! ## Deduplication (lines 260–262)

`result_df.sort_values("order_ic").drop_duplicates(["GMDNR", "ligne"],
keep="first")`. -/

/-- Comparison used by `sort_values("order_ic")`. -/
def orderLe (a b : GRow) : Prop := a.order_ic ≤ b.order_ic

instance : DecidableRel orderLe := fun a b => Nat.decLe a.order_ic b.order_ic

instance : IsTotal GRow orderLe := ⟨fun a b => Nat.le_total a.order_ic b.order_ic⟩

instance : IsTrans GRow orderLe := ⟨fun _ _ _ => Nat.le_trans⟩

def sortByOrder (rows : List GRow) : List GRow := List.insertionSort orderLe rows

/-- The `drop_duplicates` subset `["GMDNR", "ligne"]` (line 262). -/
def gKey (r : GRow) : Nat × String := (r.gmdnr, r.ligne)

/-- The option `keep="first"` of `drop_duplicates`: keep each row whose key has not
been seen earlier in the (sorted) row order. -/
def dropDupKeyAux (seen : List (Nat × String)) : List GRow → List GRow
  | [] => []
  | r :: rs =>
      if gKey r ∈ seen then dropDupKeyAux seen rs
      else r :: dropDupKeyAux (gKey r :: seen) rs

/-- The deduplication of line 262: sort by `order_ic`, then keep the first
row of each `(GMDNR, ligne)` group. -/
def dedupRows (rows : List GRow) : List GRow := dropDupKeyAux [] (sortByOrder rows)

lemma filter_dropDupKeyAux (k : Nat × String) :
    ∀ (seen : List (Nat × String)) (l : List GRow),
      (dropDupKeyAux seen l).filter (fun x => gKey x = k)
        = if k ∈ seen then [] else (l.filter (fun x => gKey x = k)).take 1 := by
  intro seen l
  induction l generalizing seen with
  | nil => simp [dropDupKeyAux]
  | cons r rs ih =>
    by_cases hseen : gKey r ∈ seen
    · rw [dropDupKeyAux, if_pos hseen, ih seen]
      by_cases hk : k ∈ seen
      · simp [hk]
      · have hne : ¬(gKey r = k) := fun h => hk (h ▸ hseen)
        simp [hk, List.filter_cons, hne]
    · rw [dropDupKeyAux, if_neg hseen]
      by_cases hrk : gKey r = k
      · subst hrk
        have hk : ¬(gKey r ∈ seen) := hseen
        rw [List.filter_cons]
        simp only [decide_eq_true_eq, if_pos rfl, reduceIte]
        rw [ih (gKey r :: seen)]
        simp [hk, List.filter_cons]
      · rw [List.filter_cons]
        simp only [decide_eq_true_eq, hrk, reduceIte, if_neg hrk]
        rw [ih (gKey r :: seen)]
        by_cases hk : k ∈ seen
        · simp [hk, hrk]
        · have hkr : ¬(k = gKey r) := fun h => hrk h.symm
          have : ¬(k ∈ gKey r :: seen) := by simp [hk, hkr]
          simp [hk, this, List.filter_cons, hrk]

lemma sorted_head_min {l : List GRow} (hs : l.Sorted orderLe) {h : GRow} {t : List GRow}
    (hl : l = h :: t) : ∀ x ∈ l, h.order_ic ≤ x.order_ic := by
  subst hl
  intro x hx
  rcases List.mem_cons.mp hx with hxa | hxt
  · subst hxa
    exact Nat.le_refl _
  · exact List.rel_of_sorted_cons hs x hxt

/-- C3: after `drop_duplicates`, the group of a `(GMDNR, ligne)` key that
contains a row `r` of strictly smallest `order_ic` is reduced to exactly
`[r]`: exactly one row per key survives, it is the one with the smallest
display order, and a key whose group is the singleton `{r}` (so that the
hypothesis holds trivially) keeps its unique row. -/
theorem dedup_exactly_min (rows : List GRow) (r : GRow) (hr : r ∈ rows)
    (hmin : ∀ r' ∈ rows, gKey r' = gKey r →
      r' = r ∨ r.order_ic < r'.order_ic) :
    (dedupRows rows).filter (fun x => gKey x = gKey r) = [r] := by
  rw [dedupRows, filter_dropDupKeyAux (gKey r) [] (sortByOrder rows)]
  simp only [List.not_mem_nil, if_false]
  set g := (sortByOrder rows).filter (fun x => gKey x = gKey r) with hg
  have hperm : g.Perm (rows.filter (fun x => gKey x = gKey r)) :=
    (List.perm_insertionSort orderLe rows).filter _
  have hrg : r ∈ g := by
    rw [hg]
    refine List.mem_filter.mpr ⟨?_, by simp⟩
    exact ((List.perm_insertionSort orderLe rows).mem_iff).mpr hr
  obtain ⟨h, t, hl⟩ : ∃ h t, g = h :: t := by
    rcases g with _ | ⟨h, t⟩
    · exact absurd hrg (by simp)
    · exact ⟨h, t, rfl⟩
  have hsorted : g.Sorted orderLe := (List.sorted_insertionSort orderLe rows).filter _
  have hhg : h ∈ g := by
    rw [hl]
    simp
  have hhmem : h ∈ rows ∧ gKey h = gKey r := by
    have := List.mem_filter.mp (hg ▸ hhg)
    refine ⟨((List.perm_insertionSort orderLe rows).mem_iff).mp this.1, by simpa using this.2⟩
  have hle : h.order_ic ≤ r.order_ic := sorted_head_min hsorted hl r hrg
  have hhr : h = r := by
    rcases hmin h hhmem.1 hhmem.2 with h' | h'
    · exact h'
    · exact absurd hle (Nat.not_le_of_lt h')
  rw [hl, hhr]
  simp

/-- Witness for C3: a line with two rows that resolved to the same code
(orders 3 and 7) keeps only the order-3 row, and a singleton group keeps
its row. -/
theorem dedup_exactly_min_witness :
    (dedupRows [⟨3, "ic1", 261, some "Bern", some "BE"⟩,
                ⟨7, "ic1", 261, some "Bern", some "BE"⟩,
                ⟨1, "ic21", 999, none, none⟩]).filter
        (fun x => gKey x = ((261, "ic1") : Nat × String))
      = [⟨3, "ic1", 261, some "Bern", some "BE"⟩] ∧
    (dedupRows [⟨3, "ic1", 261, some "Bern", some "BE"⟩,
                ⟨7, "ic1", 261, some "Bern", some "BE"⟩,
                ⟨1, "ic21", 999, none, none⟩]).filter
        (fun x => gKey x = ((999, "ic21") : Nat × String))
      = [⟨1, "ic21", 999, none, none⟩] :=
  ⟨dedup_exactly_min _ ⟨3, "ic1", 261, some "Bern", some "BE"⟩ (by decide) (by decide),
   dedup_exactly_min _ ⟨1, "ic21", 999, none, none⟩ (by decide) (by decide)⟩

/-! ## Translation application (lines 264–280) and suffix stripping (282–285) -/

/-- A row of `translations.csv`: `{polg_name, fr, de}`; the `fr`/`de` cells
may be empty (NaN). -/
structure TRow where
  polg_name : String
  fr : Option String
  de : Option String
deriving DecidableEq, Repr

/-- A harmonized row after the translation step:
`{order_ic, ligne, GMDNR, Name_fr, iso2, fr, de}`. -/
structure NRow where
  order_ic : Nat
  ligne : String
  gmdnr : Nat
  name_fr : Option String
  iso2 : Option String
  fr : Option String
  de : Option String
deriving DecidableEq, Repr

/-- The contribution of one harmonized row to the translation left-merge on
`Name_fr = polg_name` followed by `fr/de.fillna(Name_fr)` (lines 269–276):
a NaN `Name_fr` matches no key (and stays NaN through `fillna`); a name
absent from the table falls back to `Name_fr`; a matched translation row
supplies its `fr`/`de`, with NaN cells again filled from `Name_fr`. -/
def translateRow (tr : List TRow) (r : GRow) : List NRow :=
  match r.name_fr with
  | none => [⟨r.order_ic, r.ligne, r.gmdnr, r.name_fr, r.iso2, none, none⟩]
  | some n =>
    match tr.filter (fun t => t.polg_name = n) with
    | [] => [⟨r.order_ic, r.ligne, r.gmdnr, r.name_fr, r.iso2, some n, some n⟩]
    | ts => ts.map (fun t =>
        ⟨r.order_ic, r.ligne, r.gmdnr, r.name_fr, r.iso2,
          some (t.fr.getD n), some (t.de.getD n)⟩)

/-- The translation step of `harmonize_communes` (lines 264–280): when the
translation table is empty, `fr` and `de` are set to `Name_fr` directly
(lines 277–280); otherwise the left-merge/fillna path is taken. -/
def applyTranslations (rows : List GRow) (tr : List TRow) : List NRow :=
  if tr.isEmpty then
    rows.map (fun r => ⟨r.order_ic, r.ligne, r.gmdnr, r.name_fr, r.iso2,
      r.name_fr, r.name_fr⟩)
  else
    rows.flatMap (translateRow tr)

/-- C5: a surviving row whose canonical French name has no entry in the
translation table — in particular every row when the table is empty —
leaves the translation step with both `fr` and `de` equal to `Name_fr`
verbatim (including the null case), and that is its only contribution. -/
theorem translate_missing_fallback (rows : List GRow) (tr : List TRow) (r : GRow)
    (hr : r ∈ rows) (hmiss : ∀ t ∈ tr, some t.polg_name ≠ r.name_fr) :
    translateRow tr r
      = [⟨r.order_ic, r.ligne, r.gmdnr, r.name_fr, r.iso2, r.name_fr, r.name_fr⟩] ∧
    (⟨r.order_ic, r.ligne, r.gmdnr, r.name_fr, r.iso2, r.name_fr, r.name_fr⟩ : NRow)
      ∈ applyTranslations rows tr := by
  have hrow : translateRow tr r
      = [⟨r.order_ic, r.ligne, r.gmdnr, r.name_fr, r.iso2, r.name_fr, r.name_fr⟩] := by
    rcases hn : r.name_fr with _ | n
    · simp [translateRow, hn]
    · have hfil : tr.filter (fun t => t.polg_name = n) = [] := by
        refine List.filter_eq_nil_iff.mpr ?_
        intro t ht
        have := hmiss t ht
        rw [hn] at this
        simpa using fun h => this (by rw [h])
      simp [translateRow, hn, hfil]
  refine ⟨hrow, ?_⟩
  rw [applyTranslations]
  by_cases hemp : tr.isEmpty
  · rw [if_pos hemp]
    exact List.mem_map.mpr ⟨r, hr, rfl⟩
  · rw [if_neg hemp]
    refine List.mem_flatMap.mpr ⟨r, hr, ?_⟩
    rw [hrow]
    simp

/-- Witness for C5: a name absent from a nonempty table falls back, a row
with null name falls back to null, and the empty table falls back for every
row. -/
theorem translate_missing_fallback_witness :
    (⟨1, "ic1", 261, some "Bienne", some "BE", some "Bienne", some "Bienne"⟩ : NRow)
      ∈ applyTranslations [⟨1, "ic1", 261, some "Bienne", some "BE"⟩]
          [⟨"Morat", some "Morat", some "Murten"⟩] ∧
    (⟨2, "ic21", 999, none, none, none, none⟩ : NRow)
      ∈ applyTranslations [⟨2, "ic21", 999, none, none⟩]
          [⟨"Morat", some "Morat", some "Murten"⟩] ∧
    (⟨1, "ic1", 261, some "Bienne", some "BE", some "Bienne", some "Bienne"⟩ : NRow)
      ∈ applyTranslations [⟨1, "ic1", 261, some "Bienne", some "BE"⟩] [] :=
  ⟨(translate_missing_fallback _ _ ⟨1, "ic1", 261, some "Bienne", some "BE"⟩
      (by simp) (by decide)).2,
   (translate_missing_fallback _ _ ⟨2, "ic21", 999, none, none⟩
      (by simp) (by decide)).2,
   (translate_missing_fallback _ _ ⟨1, "ic1", 261, some "Bienne", some "BE"⟩
      (by simp) (by decide)).2⟩

/-- The suffix-stripping step applied to one row (lines 282–285):
`result_df["fr"].apply(remove_canton_abbreviations)` and likewise for `de`;
`pd.isna` values pass through. -/
def stripRow (r : NRow) : NRow :=
  { r with
    fr := (removeCantonAbbreviationsOpt (r.fr.map String.toList)).map String.mk,
    de := (removeCantonAbbreviationsOpt (r.de.map String.toList)).map String.mk }

/-- The suffix-stripping step over the whole table (lines 284–285). -/
def stripNames (rows : List NRow) : List NRow := rows.map stripRow

/-- C10: `remove_canton_abbreviations` is total on missing values — a null
input is returned unchanged (the `pd.isna` guard of line 204), so the
stripping step applied to rows whose names are null (for example rows left
unmatched by the geographic join) preserves the nulls; totality in Lean
certifies that no exception path exists. -/
theorem strip_preserves_null (r : NRow) :
    removeCantonAbbreviationsOpt none = none ∧
    (r.fr = none → (stripRow r).fr = none) ∧
    (r.de = none → (stripRow r).de = none) ∧
    ∀ rows : List NRow, r ∈ rows → stripRow r ∈ stripNames rows := by
  refine ⟨rfl, ?_, ?_, ?_⟩
  · intro h
    simp [stripRow, h, removeCantonAbbreviationsOpt]
  · intro h
    simp [stripRow, h, removeCantonAbbreviationsOpt]
  · intro rows hr
    exact List.mem_map.mpr ⟨r, hr, rfl⟩

/-- Witness for C10 at a row with both names null (as produced for a code
unmatched in the geographic join). -/
theorem strip_preserves_null_witness :
    (stripRow ⟨2, "ic21", 999, none, none, none, none⟩).fr = none ∧
    (stripRow ⟨2, "ic21", 999, none, none, none, none⟩).de = none :=
  ⟨(strip_preserves_null ⟨2, "ic21", 999, none, none, none, none⟩).2.1 rfl,
   (strip_preserves_null ⟨2, "ic21", 999, none, none, none, none⟩).2.2.1 rfl⟩

/-! ## `create_final_results` (lines 418–501)

The harmonized CSV read back has the `NRow` schema.  A BFS ballot-result
row is `{id, ballot_id, ballot_name, yes_pct}` (lines 324–343); the yes
percentage is carried verbatim, modelled as a rational. -/

structure BRow where
  id : Nat
  ballot_id : Nat
  ballot_name : String
  yes_pct : ℚ
deriving DecidableEq, Repr

/-- The remap `final_df["ligne"].map(ic1 to ic_1, ic21 to ic_21)` of line 475:
a pandas `Series.map` with a dict sends unmapped values to NaN. -/
def remapLigne (s : String) : Option String :=
  if s = "ic1" then some "ic_1" else if s = "ic21" then some "ic_21" else none

/-- A row of the final table after rename, ligne remap and column selection
(lines 460–479): `GMDNR, order, ligne, GMDNAME, GMDNAME_FR, GMDNAME_DE,
KTN_abr, ballot_id, yes_pct`. -/
structure FRow where
  gmdnr : Nat
  order : Nat
  ligne : Option String
  gmdname : Option String
  gmdname_fr : Option String
  gmdname_de : Option String
  ktn_abr : Option String
  ballot_id : Nat
  yes_pct : ℚ
deriving DecidableEq, Repr

/-- The content of the final row produced from a harmonized row and a
matching ballot-result row (rename of line 462, remap of line 475 and
selection of lines 477–479 applied to the merge output). -/
def mkFRow (h : NRow) (b : BRow) : FRow :=
  ⟨h.gmdnr, h.order_ic, remapLigne h.ligne, h.name_fr, h.fr, h.de, h.iso2,
    b.ballot_id, b.yes_pct⟩

/-- The inner merge of the harmonized table with the ballot results on
`GMDNR = id` (lines 442–447) followed by rename/remap/selection: each
harmonized row is paired with every result row of its code; a row with no
match contributes nothing.  (The final `sort_values(["ballot_id", "ligne",
"order"])` of line 482 only permutes rows and is not modelled.) -/
def createFinalRows (hs : List NRow) (bs : List BRow) : List FRow :=
  hs.flatMap (fun h => (bs.filter (fun b => b.id = h.gmdnr)).map (mkFRow h))

/-- The audit trail of lines 449–458: `missing_communes` is the set of
harmonized codes with no result row, and one line naming `Name_fr`, `GMDNR`
and `ligne` is printed for every harmonized row whose code is missing. -/
def missingAuditLog (hs : List NRow) (bs : List BRow) :
    List (Option String × Nat × String) :=
  (hs.filter (fun h => !(bs.any (fun b => b.id = h.gmdnr)))).map
    (fun h => (h.name_fr, h.gmdnr, h.ligne))

lemma createFinalRows_cons (h : NRow) (hs : List NRow) (bs : List BRow) :
    createFinalRows (h :: hs) bs
      = (bs.filter (fun b => b.id = h.gmdnr)).map (mkFRow h) ++ createFinalRows hs bs := by
  simp [createFinalRows]

lemma filter_createFinalRows_length (hs : List NRow) (bs : List BRow) (c β : Nat) :
    ((createFinalRows hs bs).filter
        (fun f => f.gmdnr = c ∧ f.ballot_id = β)).length
      = (hs.filter (fun x => x.gmdnr = c)).length
        * (bs.filter (fun b => b.id = c ∧ b.ballot_id = β)).length := by
  induction hs with
  | nil => simp [createFinalRows]
  | cons h hs ih =>
    rw [createFinalRows_cons, List.filter_append, List.length_append, ih]
    by_cases hc : h.gmdnr = c
    · subst hc
      rw [List.filter_cons]
      simp only [decide_eq_true_eq, reduceIte]
      rw [List.filter_map]
      have hpred : ∀ b : BRow,
          ((fun f : FRow => decide (f.gmdnr = h.gmdnr ∧ f.ballot_id = β)) ∘ mkFRow h) b
            = decide (b.ballot_id = β) := by
        intro b
        simp [mkFRow]
      rw [List.filter_congr (fun b _ => hpred b), List.length_map,
        List.filter_filter, List.length_cons]
      have heq : ∀ b : BRow,
          (decide (b.ballot_id = β) && decide (b.id = h.gmdnr))
            = decide (b.id = h.gmdnr ∧ b.ballot_id = β) := by
        intro b
        by_cases h1 : b.ballot_id = β <;> by_cases h2 : b.id = h.gmdnr <;>
          simp [h1, h2]
      rw [List.filter_congr (fun b _ => heq b)]
      ring
    · rw [List.filter_cons]
      simp only [decide_eq_true_eq, hc, reduceIte]
      have hnil : ((bs.filter (fun b => b.id = h.gmdnr)).map (mkFRow h)).filter
          (fun f => f.gmdnr = c ∧ f.ballot_id = β) = [] := by
        refine List.filter_eq_nil_iff.mpr ?_
        intro f hf
        obtain ⟨b, _, hfb⟩ := List.mem_map.mp hf
        subst hfb
        simp [mkFRow, hc]
      rw [hnil]
      simp

/-- C8: in the (hard-coded) inner-join mode of `create_final_results`,
a harmonized municipality with no matching ballot result contributes no
final row and every one of its roster rows is logged individually with its
name, code and line; and for every ballot measure the number of final rows
carrying a given code equals (number of harmonized roster rows with that
code) × (number of result rows for that code and measure) — in particular
exactly one final row per roster row and per matched ballot measure. -/
theorem create_final_inner (hs : List NRow) (bs : List BRow) (h : NRow)
    (hh : h ∈ hs) :
    ((∀ b ∈ bs, b.id ≠ h.gmdnr) →
      (∀ f ∈ createFinalRows hs bs, f.gmdnr ≠ h.gmdnr) ∧
      (h.name_fr, h.gmdnr, h.ligne) ∈ missingAuditLog hs bs) ∧
    (∀ β : Nat,
      ((createFinalRows hs bs).filter
          (fun f => f.gmdnr = h.gmdnr ∧ f.ballot_id = β)).length
        = (hs.filter (fun x => x.gmdnr = h.gmdnr)).length
          * (bs.filter (fun b => b.id = h.gmdnr ∧ b.ballot_id = β)).length) := by
  constructor
  · intro hnone
    constructor
    · intro f hf
      obtain ⟨h', _, hf'⟩ := List.mem_flatMap.mp hf
      obtain ⟨b, hb, hfb⟩ := List.mem_map.mp hf'
      subst hfb
      have hbid : b.id = h'.gmdnr := by
        simpa using (List.mem_filter.mp hb).2
      have hbin : b ∈ bs := List.mem_of_mem_filter hb
      intro heq
      exact hnone b hbin (by simpa [mkFRow, hbid] using heq)
    · refine List.mem_map.mpr ⟨h, ?_, rfl⟩
      refine List.mem_filter.mpr ⟨hh, ?_⟩
      simp only [Bool.not_eq_eq_eq_not, Bool.not_true, List.any_eq_false,
        decide_eq_true_eq]
      intro b hb
      exact hnone b hb
  · intro β
    exact filter_createFinalRows_length hs bs h.gmdnr β

/-- Concrete harmonized roster for the C8 witness: codes 261 and 999 on
line ic1. -/
def hs0 : List NRow :=
  [⟨1, "ic1", 261, some "Berne", some "BE", some "Berne", some "Bern"⟩,
   ⟨2, "ic1", 999, some "Fantôme", none, some "Fantôme", some "Fantôme"⟩]

/-- Concrete ballot results for the C8 witness: only code 261, one measure. -/
def bs0 : List BRow := [⟨261, 6650, "Initiative", 54⟩]

/-- Witness for C8: with roster `{261, 999}` and results only for 261,
code 999 yields no final row and one audit record naming it, while code 261
yields exactly one final row for measure 6650. -/
theorem create_final_inner_witness :
    (∀ f ∈ createFinalRows hs0 bs0, f.gmdnr ≠ 999) ∧
    ((some "Fantôme", 999, "ic1") ∈ missingAuditLog hs0 bs0) ∧
    ((createFinalRows hs0 bs0).filter
        (fun f => f.gmdnr = 261 ∧ f.ballot_id = 6650)).length = 1 := by
  have h999 := create_final_inner hs0 bs0
    ⟨2, "ic1", 999, some "Fantôme", none, some "Fantôme", some "Fantôme"⟩
    (by simp [hs0])
  have h261 := create_final_inner hs0 bs0
    ⟨1, "ic1", 261, some "Berne", some "BE", some "Berne", some "Bern"⟩
    (by simp [hs0])
  refine ⟨(h999.1 (by decide)).1, (h999.1 (by decide)).2, ?_⟩
  rw [h261.2 6650]
  decide

/-! ## Output schemas (lines 287–290 and 477–479) and the C9 claim -/

/-- The fixed column selection and order of the final results file
(line 478). -/
def finalColumns : List String :=
  ["GMDNR", "order", "ligne", "GMDNAME", "GMDNAME_FR", "GMDNAME_DE",
   "KTN_abr", "ballot_id", "yes_pct"]

/-- The column order the claim states — line, resolved code, order,
canonical name, name_fr, name_de, canton ISO2, ballot id, yes percentage —
written in the column names of the pipeline.  (Second definition following
the wording of the claim, to be compared with `finalColumns` from the source.) -/
def claimedFinalColumns : List String :=
  ["ligne", "GMDNR", "order", "GMDNAME", "GMDNAME_FR", "GMDNAME_DE",
   "KTN_abr", "ballot_id", "yes_pct"]

/-- The fixed column list of the harmonized file (line 288). -/
def harmonizeFinalColumns : List String :=
  ["order_ic", "ligne", "GMDNR", "Name_fr", "iso2", "fr", "de"]

/-- The availability filter of line 289:
`[col for col in final_columns if col in result_df.columns]` — a column not
present in the DataFrame is omitted entirely, never placeholder-filled. -/
def availableColumns (present : List String) : List String :=
  harmonizeFinalColumns.filter (fun c => c ∈ present)

/-- Counterexample to C9 as stated: the claimed fixed order
(line, resolved code, order, …) is not the order the code writes
(resolved code, order, line, …). -/
theorem final_columns_cex : claimedFinalColumns ≠ finalColumns := by decide

/-- C9 (amended): the final table has the fixed column order
`GMDNR, order, ligne, GMDNAME, GMDNAME_FR, GMDNAME_DE, KTN_abr, ballot_id,
yes_pct` — the same nine columns the claim lists, but with the first three
ordered (resolved code, order, line) rather than (line, resolved code,
order); and in the harmonized file a column absent upstream is omitted
entirely (the selection keeps exactly the available columns of the fixed
list, in its order), never filled with placeholder text. -/
theorem final_columns_spec :
    claimedFinalColumns.Perm finalColumns ∧
    (∀ present : List String,
      List.Sublist (availableColumns present) harmonizeFinalColumns) ∧
    (∀ present c, c ∈ availableColumns present
        ↔ c ∈ harmonizeFinalColumns ∧ c ∈ present) := by
  refine ⟨by decide, ?_, ?_⟩
  · intro present
    exact List.filter_sublist _
  · intro present c
    rw [availableColumns, List.mem_filter]
    simp

/-- Witness for C9 (amended): with `iso2` missing upstream it is omitted
from the harmonized selection. -/
theorem final_columns_spec_witness :
    ¬("iso2" ∈ availableColumns ["order_ic", "ligne", "GMDNR", "Name_fr", "fr", "de"]) :=
  fun hmem => by
    have h := (final_columns_spec.2.2
      ["order_ic", "ligne", "GMDNR", "Name_fr", "fr", "de"] "iso2").mp hmem
    exact absurd h.2 (by decide)

/-! ## Exit-code behaviour of `main` (lines 504–534) and the C6 claim -/

/-- Which external sources and steps succeed in one run: the explicit
failure modes handled by the script. -/
structure Env where
  intercityOk : Bool
  mutationsOk : Bool
  geolevelOk : Bool
  cantonOk : Bool
  translationsOk : Bool
  harmonizedReadOk : Bool
  ballotFetchOk : Bool
  exportOk : Bool
deriving DecidableEq, Repr

/-- The abort behaviour inside `harmonize_communes`: failures of the
InterCity files (line 86), the geo-level service (line 164) and the canton
table (line 180) call `sys.exit(1)`; mutation (lines 110–113) and
translation (lines 195–197) failures degrade and continue. -/
def harmonizeExit (e : Env) : Option Nat :=
  if !e.intercityOk then some 1
  else if !e.geolevelOk then some 1
  else if !e.cantonOk then some 1
  else none

/-- The boolean returned by `create_final_results` (lines 418–501): `False`
when the harmonized file cannot be read (line 432), when the BFS ballot
fetch fails (lines 436–438, via `fetch_bfs_results` returning `None` at
lines 350–355), or when the export fails (lines 499–501). -/
def createFinalSuccess (e : Env) : Bool :=
  e.harmonizedReadOk && e.ballotFetchOk && e.exportOk

/-- The process exit code of `main` (lines 504–534): a `sys.exit(1)` inside
`harmonize_communes` aborts with 1; otherwise `main` prints either the
success or the error banner depending on `create_final_results` and then
returns normally, so the process exits 0 in both cases
(`extract_ballot_titles` catches all its errors and never aborts). -/
def mainExitCode (e : Env) : Nat :=
  match harmonizeExit e with
  | some code => code
  | none => 0

/-- The environment of a run where only the ballot-result fetch fails. -/
def envBallotFail : Env := ⟨true, true, true, true, true, true, false, true⟩

/-- Counterexample to C6 as stated: when the ballot-result fetch — a
critical source per the claim — fails, `create_final_results` reports
failure (the run is not a success), yet the process exits with code 0,
not 1. -/
theorem main_exit_cex :
    mainExitCode envBallotFail = 0 ∧ createFinalSuccess envBallotFail = false := by
  decide

/-- C6 (amended): the process exits 1 exactly when one of the sources that
`harmonize_communes` treats as critical fails — the InterCity line files,
the geo-level lookup, or the canton table; a ballot-result fetch failure
makes `create_final_results` fail and skips the final file, but the process
still exits 0, so exit code 0 does not imply a fully successful run. -/
theorem main_exit_spec (e : Env) :
    (mainExitCode e = 0 ∨ mainExitCode e = 1) ∧
    (mainExitCode e = 1
      ↔ (e.intercityOk = false ∨ e.geolevelOk = false ∨ e.cantonOk = false)) ∧
    (e.ballotFetchOk = false → e.intercityOk = true → e.geolevelOk = true →
      e.cantonOk = true → mainExitCode e = 0 ∧ createFinalSuccess e = false) := by
  obtain ⟨i, m, g, ct, t, hr, bf, ex⟩ := e
  cases i <;> cases g <;> cases ct <;> cases bf <;>
    simp [mainExitCode, harmonizeExit, createFinalSuccess]

/-- Witness for C6 (amended): a failed InterCity load exits 1; a failed
ballot fetch exits 0 with an unsuccessful final stage. -/
theorem main_exit_spec_witness :
    mainExitCode ⟨false, true, true, true, true, true, true, true⟩ = 1 ∧
    (mainExitCode envBallotFail = 0 ∧ createFinalSuccess envBallotFail = false) :=
  ⟨(main_exit_spec ⟨false, true, true, true, true, true, true, true⟩).2.1.mpr
      (Or.inl rfl),
   (main_exit_spec envBallotFail).2.2 rfl rfl rfl rfl⟩

end Roestigraben
